import Mathlib

/-!
Shallow embedding of the VibeCheck music-recommendation service.

The embedding covers:
* `app/core/agent.py` — the `MusicAgent` class: song-name extraction from chat
  messages, recommendation rendering, thinking-tag cleaning, and the `chat`
  pipeline, with external collaborators (the TF-IDF similarity backend
  `recommend_songs` and the hosted LLM) passed in as function parameters and
  exceptions modelled with `Except`.
* `app/api/main.py` — the `/recommend` and `/songs` endpoint handlers.
* `app/ui/api_client.py` — the client wrapper `chat_with_assistant`.

Strings are modelled as Lean `String`/`List Char`; the Python regular
expressions used by the agent are translated to explicit scanning functions
with the same leftmost-match semantics.
-/

/-- Single-quote character (codepoint 39). -/
def squote : Char := Char.ofNat 39

/-- `startsWithListB n l` is true iff `n` is a leading segment of `l`. -/
def startsWithListB : List Char → List Char → Bool
  | [], _ => true
  | _ :: _, [] => false
  | a :: as, b :: bs => a == b && startsWithListB as bs

/-- `containsList n l` is true iff `n` occurs as a contiguous run inside `l`
(Python's `n in l` on strings). -/
def containsList (n : List Char) : List Char → Bool
  | [] => startsWithListB n []
  | c :: cs => startsWithListB n (c :: cs) || containsList n cs

/-- Python `needle in hay` on strings. -/
def strContains (hay needle : String) : Bool :=
  containsList needle.toList hay.toList

/-- A character matched by the quote class of the regex `["\x27]` used in
`MusicAgent.chat`: a double quote or a single quote. -/
def isQuote (c : Char) : Bool := c == '"' || c == squote

/-- Python whitespace class `\s` (ASCII part), also used by `str.strip`. -/
def isPyWs (c : Char) : Bool :=
  c == ' ' || c == '\t' || c == '\n' || c == '\r' ||
  c == Char.ofNat 11 || c == Char.ofNat 12

/-- Python `str.strip()` on a character list. -/
def pyStrip (l : List Char) : List Char :=
  ((l.dropWhile isPyWs).reverse.dropWhile isPyWs).reverse

/-- First match of `re.findall` for the pattern quote `([^"\x27]+)` quote
(agent.py line 120): leftmost position at which a quote character is followed
by a nonempty run of non-quote characters that is closed by another quote
character; the captured group is that run. -/
def findQuoted : List Char → Option String
  | [] => none
  | c :: cs =>
    if isQuote c then
      let content := cs.takeWhile (fun x => !(isQuote x))
      let rest := cs.dropWhile (fun x => !(isQuote x))
      if content.isEmpty || rest.isEmpty then findQuoted cs
      else some (String.mk content)
    else findQuoted cs

/-- The literal "similar to " of the regex at agent.py line 128. -/
def simTo : List Char := ['s', 'i', 'm', 'i', 'l', 'a', 'r', ' ', 't', 'o', ' ']

/-- Lazy scan of the group `(.+?)` followed by `(?:\?|$|\.)`: having already
consumed `acc` (in reverse), stop as soon as the remainder is exhausted, is a
single final newline (the `$` anchor), or begins with a question mark or a
period; a further newline cannot be consumed by `.` and aborts the attempt. -/
def lazyCapture (acc : List Char) : List Char → Option (List Char)
  | [] => some acc.reverse
  | c :: cs =>
    if c == '?' || c == '.' then some acc.reverse
    else if c == '\n' then (if cs.isEmpty then some acc.reverse else none)
    else lazyCapture (c :: acc) cs

/-- Attempt to match `similar to (.+?)(?:\?|$|\.)` anchored at the head of
the list; returns the captured group on success. -/
def matchSimilarAt (l : List Char) : Option (List Char) :=
  if startsWithListB simTo l then
    match l.drop simTo.length with
    | [] => none
    | c :: cs => if c == '\n' then none else lazyCapture [c] cs
  else none

/-- `re.search(r"similar to (.+?)(?:\?|$|\.)", s)`: try the anchored match at
every position from the left, returning the first success. -/
def similarSearch : List Char → Option (List Char)
  | [] => none
  | c :: cs =>
    match matchSimilarAt (c :: cs) with
    | some t => some t
    | none => similarSearch cs

/-- Python `str.lower()` (character-wise lowering; agrees with
`String.toLower` but is defined by structural recursion over the character
list). -/
def pyLower (s : String) : String := String.mk (s.toList.map Char.toLower)

/-- The keyword set of agent.py line 118. -/
def keywords : List String := ["recommend", "suggestion", "similar", "like"]

/-- `any(word in user_lower for word in [...])` of agent.py line 118. -/
def hasKeyword (user_input : String) : Bool :=
  keywords.any (fun w => strContains (pyLower user_input) w)

/-- Song-name extraction logic of `MusicAgent.chat` (agent.py lines 115-133):
when a trigger keyword occurs in the lower-cased message, first try the quoted
pattern on the original message, then the "similar to" pattern on the
lower-cased message (stripping the capture, as `.strip()` does). -/
def extract_song_name (user_input : String) : Option String :=
  if hasKeyword user_input then
    match findQuoted user_input.toList with
    | some q => some q
    | none =>
      match similarSearch (pyLower user_input).toList with
      | some t => some (String.mk (pyStrip t))
      | none => none
  else none

/-- The open tag of the pattern at agent.py line 62. -/
def openTag : List Char := ['<', 't', 'h', 'i', 'n', 'k', '>']

/-- The close tag of the pattern at agent.py line 62. -/
def closeTag : List Char := ['<', '/', 't', 'h', 'i', 'n', 'k', '>']

/-- Find the first occurrence of the close tag and return the characters after
it (the lazy `.*?</think>` with `re.DOTALL`), or `none` if no close tag
occurs. -/
def dropUntilClose : List Char → Option (List Char)
  | [] => none
  | c :: cs =>
    if startsWithListB closeTag (c :: cs) then some ((c :: cs).drop 8)
    else dropUntilClose cs

/-- Fuelled scan for `re.sub(r"<think>.*?</think>", "", s, flags=re.DOTALL)`:
at each position, if the open tag leads and a close tag follows, drop the whole
delimited region and continue after it; otherwise keep the character.  One unit
of fuel is spent per step, and every step consumes at least one character, so
fuel equal to the length of the list always suffices. -/
def stripThinkF : Nat → List Char → List Char
  | _, [] => []
  | 0, l => l
  | f + 1, c :: cs =>
    if startsWithListB openTag (c :: cs) then
      match dropUntilClose ((c :: cs).drop 7) with
      | some rest => stripThinkF f rest
      | none => c :: stripThinkF f cs
    else c :: stripThinkF f cs

/-- Removal of thinking-tag regions (agent.py line 62). -/
def stripThink (l : List Char) : List Char := stripThinkF l.length l

/-- Index of the last newline inside the leading whitespace run of the list
(the greedy `\s*` of `\n\s*\n` followed by the final `\n`). -/
def lastNewlinePos : List Char → Option Nat
  | [] => none
  | c :: cs =>
    if isPyWs c then
      match lastNewlinePos cs with
      | some k => some (k + 1)
      | none => if c == '\n' then some 0 else none
    else none

/-- Fuelled scan for `re.sub(r"\n\s*\n", "\n\n", s)` (agent.py line 64): at a
newline whose following whitespace run contains another newline, the region
through the last such newline is replaced by exactly two newlines and the scan
resumes after it. -/
def collapseF : Nat → List Char → List Char
  | _, [] => []
  | 0, l => l
  | f + 1, c :: cs =>
    if c == '\n' then
      match lastNewlinePos cs with
      | some k => '\n' :: '\n' :: collapseF f (cs.drop (k + 1))
      | none => c :: collapseF f cs
    else c :: collapseF f cs

/-- Collapse of blank-line runs (agent.py line 64). -/
def collapseNewlines (l : List Char) : List Char := collapseF l.length l

/-- `MusicAgent._clean_thinking_tags` (agent.py lines 59-65): remove
`<think>`-delimited regions, collapse blank-line runs, and strip. -/
def clean_thinking_tags (response : String) : String :=
  String.mk (pyStrip (collapseNewlines (stripThink response.toList)))

/-- A row of the recommendation dataframe (the record shape served by the
API: artist, song, optional link and lyrics text). -/
structure SongRec where
  artist : String
  song : String
  link : Option String := none
  text : Option String := none
deriving DecidableEq

/-- The LLM handle: a function from chat messages (role, content pairs) to a
completion, or an exception. -/
def LlmFn : Type := List (String × String) → Except String String

/-- The similarity backend `recommend_songs`: from a song name and a count to
an optional dataframe (`none` = Python `None`, `some []` = empty dataframe) or
an exception. -/
def Backend : Type := String → Nat → Except String (Option (List SongRec))

/-- The agent's external collaborators: the (possibly uninitialized) LLM
handle and the similarity backend. -/
structure Env where
  llm : Option LlmFn
  backend : Backend

/-- `MusicAgent.__init__` resolution of the LLM handle: with no API key the
handle stays unset; with a key, `_setup_agent` may still fail (the exception
is swallowed and the handle stays unset). -/
def init_llm (api_key : Option String) (setup : String → Option LlmFn) : Option LlmFn :=
  match api_key with
  | none => none
  | some k => setup k

/-- The literal fallback text of agent.py line 74. -/
def notFoundMsg : String := "Song not found in the database. Please try another song."

/-- The bullet line rendered per dataframe row at agent.py line 78. -/
def songLine (r : SongRec) : String := "- " ++ r.song ++ " by " ++ r.artist ++ "\n"

/-- `MusicAgent._get_recommendations` (agent.py lines 67-84); the second
component records the backend calls made. -/
def get_recommendations (env : Env) (song_name : String) :
    String × List (String × Nat) :=
  match env.backend song_name 5 with
  | .error e => ("Error occurred while fetching recommendations: " ++ e, [(song_name, 5)])
  | .ok none => (notFoundMsg, [(song_name, 5)])
  | .ok (some rows) =>
    if rows.isEmpty then (notFoundMsg, [(song_name, 5)])
    else (rows.foldl (fun acc r => acc ++ songLine r) "Here are the recommended songs:\n",
          [(song_name, 5)])

/-- The prompt built by `MusicAgent._format_with_llm` (agent.py lines 93-96). -/
def formatMessages (user_input recommendations : String) : List (String × String) :=
  [("system", "You are a helpful music assistant. Format the following recommendations in a friendly way."),
   ("user", "The user asked: " ++ user_input ++ "\n\nRecommendations:\n" ++ recommendations)]

/-- `MusicAgent._format_with_llm` (agent.py lines 86-104); the second
component records the LLM invocations made. -/
def format_with_llm (env : Env) (user_input recommendations : String) :
    String × List (List (String × String)) :=
  match env.llm with
  | none => (recommendations, [])
  | some f =>
    match f (formatMessages user_input recommendations) with
    | .ok content => (clean_thinking_tags content, [formatMessages user_input recommendations])
    | .error e => ("Could not format recommendations using LLM: " ++ e,
                   [formatMessages user_input recommendations])

/-- The general-conversation prompt of agent.py lines 136-139. -/
def generalMessages (user_input : String) : List (String × String) :=
  [("system", "You are a helpful music assistant. You can recommend songs based on lyrics similarity. Ask the user for a song name if they want recommendations."),
   ("user", user_input)]

/-- The observable outcome of one `chat` call: the reply together with the
LLM invocations and backend lookups performed. -/
structure ChatResult where
  reply : String
  llmCalls : List (List (String × String))
  backendCalls : List (String × Nat)
deriving DecidableEq

/-- `MusicAgent.chat` (agent.py lines 106-148): gate on the LLM handle, then
either the recommendation path (extraction, lookup, LLM formatting) or the
general-conversation path; the only raise site reaching `chat`'s own handler
is the general-path LLM invocation. -/
def chat (env : Env) (user_input : String) : ChatResult :=
  match env.llm with
  | none => ⟨"I\x27m sorry, I cannot process your request because the Groq API key is missing or invalid.", [], []⟩
  | some f =>
    match extract_song_name user_input with
    | some song_name =>
      let recs := get_recommendations env song_name
      let fmt := format_with_llm env user_input recs.fst
      ⟨fmt.fst, fmt.snd, recs.snd⟩
    | none =>
      match f (generalMessages user_input) with
      | .ok content => ⟨clean_thinking_tags content, [generalMessages user_input], []⟩
      | .error e => ⟨"I encountered an error while processing your request: " ++ e,
                     [generalMessages user_input], []⟩

/-- Request body of `POST /recommend` (main.py lines 38-40). -/
structure RecommendationRequest where
  song_name : String
  top_n : Nat

/-- Outcome of an endpoint handler: a JSON body, or an `HTTPException` with a
status code and detail string. -/
inductive ApiResult (α : Type) where
  | ok (body : α)
  | httpError (status : Nat) (detail : String)
deriving DecidableEq

/-- The `/recommend` handler (main.py lines 68-85): `None` from the backend
becomes HTTP 404 "Song not found" (re-raised past the generic handler), any
other exception becomes HTTP 500 with the exception text, and a dataframe is
returned as its list of records. -/
def recommend_endpoint (rs : Backend) (req : RecommendationRequest) :
    ApiResult (List SongRec) :=
  match rs req.song_name req.top_n with
  | .error e => .httpError 500 e
  | .ok none => .httpError 404 "Song not found"
  | .ok (some rows) => .ok rows

/-- Modelled from the spec: the similarity backend `recommend_songs` is
imported from `app.core.recommender`, which is not part of the sources; per
the spec it is a black box that, given a song identifier and a result count,
returns the backend's ordered sequence of similar-song records truncated to
the requested count, or an absent result when the song is unknown. -/
def spec_recommend_songs (db : String → Option (List SongRec))
    (song : String) (top_n : Nat) : Option (List SongRec) :=
  (db song).map (fun rows => rows.take top_n)

/-- Response body of `GET /songs` (main.py lines 54-56). -/
structure SongsListResponse where
  songs : List String
  count : Nat

/-- First-occurrence deduplication, as `pandas.Series.unique` performs on the
song column. -/
def pdUniqueAux (seen : List String) : List String → List String
  | [] => []
  | s :: rest =>
    if s ∈ seen then pdUniqueAux seen rest
    else s :: pdUniqueAux (s :: seen) rest

/-- `df["song"].dropna().unique()` deduplication step. -/
def pdUnique (l : List String) : List String := pdUniqueAux [] l

/-- Sorted insertion for the model of Python `sorted`. -/
def insertSorted (s : String) : List String → List String
  | [] => [s]
  | t :: ts => if s ≤ t then s :: t :: ts else t :: insertSorted s ts

/-- Python `sorted` on strings (ascending lexicographic order); insertion
sort is extensionally the same function. -/
def sortStrings : List String → List String
  | [] => []
  | s :: ss => insertSorted s (sortStrings ss)

/-- The `/songs` handler (main.py lines 98-107):
`sorted(df["song"].dropna().unique().tolist())` plus its length, with the song
column of the dataframe passed as a list of optional values (`none` = NaN). -/
def get_all_songs (col : List (Option String)) : SongsListResponse :=
  let songs := sortStrings (pdUnique (col.filterMap id))
  ⟨songs, songs.length⟩

/-- An HTTP response as seen by the client wrapper: a status code and a JSON
object body (a string-to-string map). -/
structure HttpResponse where
  status : Nat
  body : List (String × String)

/-- Python `dict.get(key, default)` on the parsed JSON body. -/
def dict_get (d : List (String × String)) (k dflt : String) : String :=
  match d.find? (fun p => p.fst == k) with
  | some p => p.snd
  | none => dflt

/-- `APIClient.chat_with_assistant` (api_client.py lines 79-108) applied to a
received response: `raise_for_status` raises for status codes 400-599 (the
raise is converted to an `APIError`, modelled as `.error`); otherwise the
reply is `result.get("response", "No response received")`. -/
def chat_with_assistant (resp : HttpResponse) : Except String String :=
  if 400 ≤ resp.status ∧ resp.status < 600 then
    .error ("Chat error: HTTP status " ++ toString resp.status)
  else
    .ok (dict_get resp.body "response" "No response received")

theorem startsWithListB_self_append (n l : List Char) :
    startsWithListB n (n ++ l) = true := by
  induction n with
  | nil => rfl
  | cons a as ih => simp [startsWithListB, ih]

theorem startsWithListB_le_length {n l : List Char}
    (h : startsWithListB n l = true) : n.length ≤ l.length := by
  induction n generalizing l with
  | nil => simp
  | cons a as ih =>
    cases l with
    | nil => simp [startsWithListB] at h
    | cons b bs =>
      simp only [startsWithListB, Bool.and_eq_true] at h
      simpa using ih h.2

theorem get_recommendations_snd (env : Env) (s : String) :
    (get_recommendations env s).snd = [(s, 5)] := by
  unfold get_recommendations
  rcases env.backend s 5 with e | r
  · rfl
  · rcases r with _ | rows
    · rfl
    · by_cases h : rows.isEmpty <;> simp [h]

theorem format_with_llm_some (f : LlmFn) (b : Backend) (i r : String) :
    format_with_llm ⟨some f, b⟩ i r =
      match f (formatMessages i r) with
      | .ok content => (clean_thinking_tags content, [formatMessages i r])
      | .error e => ("Could not format recommendations using LLM: " ++ e,
                     [formatMessages i r]) := rfl

theorem format_with_llm_snd (f : LlmFn) (b : Backend) (i r : String) :
    (format_with_llm ⟨some f, b⟩ i r).snd = [formatMessages i r] := by
  rw [format_with_llm_some]
  rcases f (formatMessages i r) with e | c <;> rfl

theorem chat_some_general (f : LlmFn) (b : Backend) (input : String)
    (hx : extract_song_name input = none) :
    chat ⟨some f, b⟩ input =
      match f (generalMessages input) with
      | .ok content => ⟨clean_thinking_tags content, [generalMessages input], []⟩
      | .error e => ⟨"I encountered an error while processing your request: " ++ e,
                     [generalMessages input], []⟩ := by
  unfold chat
  rw [hx]

theorem chat_some_extract (f : LlmFn) (b : Backend) (input s : String)
    (hx : extract_song_name input = some s) :
    chat ⟨some f, b⟩ input =
      ⟨(format_with_llm ⟨some f, b⟩ input (get_recommendations ⟨some f, b⟩ s).fst).fst,
       (format_with_llm ⟨some f, b⟩ input (get_recommendations ⟨some f, b⟩ s).fst).snd,
       (get_recommendations ⟨some f, b⟩ s).snd⟩ := by
  unfold chat
  rw [hx]

/-- Claim C2: for every input string, if no LLM credential was configured at
agent construction (so the LLM handle is unset), `chat` returns the fixed
apology string immediately, invoking neither the LLM nor the similarity
backend. -/
theorem chat_degraded_without_credential (setup : String → Option LlmFn)
    (backend : Backend) (input : String) :
    chat ⟨init_llm none setup, backend⟩ input =
      ⟨"I\x27m sorry, I cannot process your request because the Groq API key is missing or invalid.",
       [], []⟩ := rfl

/-- Claim C6: `chat` is a total function on messages (it is defined by
structural pattern matching, never re-raising), and each exception raised by
an external call is converted to a descriptive text with the corresponding
fixed prefix: backend exceptions in `_get_recommendations`, LLM exceptions in
`_format_with_llm`, and LLM exceptions on the general-conversation path in
`chat` itself. -/
theorem chat_error_conversion :
    (∀ (env : Env) (s e : String), env.backend s 5 = .error e →
        (get_recommendations env s).fst =
          "Error occurred while fetching recommendations: " ++ e) ∧
    (∀ (f : LlmFn) (b : Backend) (input recs e : String),
        f (formatMessages input recs) = .error e →
        (format_with_llm ⟨some f, b⟩ input recs).fst =
          "Could not format recommendations using LLM: " ++ e) ∧
    (∀ (f : LlmFn) (b : Backend) (input e : String),
        extract_song_name input = none →
        f (generalMessages input) = .error e →
        (chat ⟨some f, b⟩ input).reply =
          "I encountered an error while processing your request: " ++ e) := by
  refine ⟨?_, ?_, ?_⟩
  · intro env s e h
    unfold get_recommendations
    rw [h]
  · intro f b input recs e h
    rw [format_with_llm_some, h]
  · intro f b input e hx h
    rw [chat_some_general f b input hx, h]

/-- Witness for claim C6 at concrete collaborators that raise. -/
theorem chat_error_conversion_witness :
    (get_recommendations ⟨none, fun _ _ => .error "boom"⟩ "Hey Jude").fst =
      "Error occurred while fetching recommendations: boom" ∧
    (format_with_llm ⟨some (fun _ => .error "down"), fun _ _ => .ok none⟩ "hi" "recs").fst =
      "Could not format recommendations using LLM: down" ∧
    (chat ⟨some (fun _ => .error "net"), fun _ _ => .ok none⟩ "hello there").reply =
      "I encountered an error while processing your request: net" :=
  ⟨chat_error_conversion.1 ⟨none, fun _ _ => .error "boom"⟩ "Hey Jude" "boom" rfl,
   chat_error_conversion.2.1 (fun _ => .error "down") (fun _ _ => .ok none) "hi" "recs" "down" rfl,
   chat_error_conversion.2.2 (fun _ => .error "net") (fun _ _ => .ok none) "hello there" "net"
     (by decide) rfl⟩

/-- Claim C10: a 2xx response whose JSON body lacks a "response" key makes the
client wrapper return the literal "No response received" instead of raising. -/
theorem client_chat_missing_response_key (resp : HttpResponse)
    (hlo : 200 ≤ resp.status) (hhi : resp.status < 300)
    (hkey : ∀ p ∈ resp.body, p.fst ≠ "response") :
    chat_with_assistant resp = .ok "No response received" := by
  unfold chat_with_assistant
  rw [if_neg (by omega)]
  unfold dict_get
  rw [List.find?_eq_none.mpr (fun p hp => by simpa using hkey p hp)]

/-- Witness for claim C10: status 200 with a body holding only other keys. -/
theorem client_chat_missing_response_key_witness :
    chat_with_assistant ⟨200, [("detail", "ok"), ("model", "qwen")]⟩ =
      .ok "No response received" :=
  client_chat_missing_response_key ⟨200, [("detail", "ok"), ("model", "qwen")]⟩
    (by decide) (by decide) (by decide)

/-- Concatenation of a list of strings. -/
def concatStrs : List String → String
  | [] => ""
  | s :: ss => s ++ concatStrs ss

theorem string_append_assoc (a b c : String) : a ++ b ++ c = a ++ (b ++ c) := by
  rcases a with ⟨la⟩; rcases b with ⟨lb⟩; rcases c with ⟨lc⟩
  show String.mk (la ++ lb ++ lc) = String.mk (la ++ (lb ++ lc))
  rw [List.append_assoc]

theorem foldl_songLine (rows : List SongRec) (init : String) :
    rows.foldl (fun acc r => acc ++ songLine r) init =
      init ++ concatStrs (rows.map songLine) := by
  induction rows generalizing init with
  | nil =>
    show init = init ++ ""
    rcases init with ⟨l⟩
    show String.mk l = String.mk (l ++ [])
    rw [List.append_nil]
  | cons r rs ih =>
    show rs.foldl (fun acc r => acc ++ songLine r) (init ++ songLine r) = _
    rw [ih, string_append_assoc]
    rfl

/-- Claim C8: a non-empty backend result is rendered as a header line followed
by one bullet line per record, "- song by artist", in the order the backend
returned the records. -/
theorem recommendations_rendered_as_bullets (env : Env) (s : String)
    (rows : List SongRec) (hb : env.backend s 5 = .ok (some rows))
    (hne : rows ≠ []) :
    (get_recommendations env s).fst =
      "Here are the recommended songs:\n" ++ concatStrs (rows.map songLine) ∧
    (rows.map songLine).length = rows.length := by
  refine ⟨?_, List.length_map rows songLine⟩
  unfold get_recommendations
  rw [hb]
  cases rows with
  | nil => exact absurd rfl hne
  | cons r rs => exact foldl_songLine (r :: rs) _

/-- Witness for claim C8 at a concrete two-row backend result. -/
theorem recommendations_rendered_as_bullets_witness :
    (get_recommendations
        ⟨none, fun _ _ => .ok (some [⟨"The Beatles", "Yesterday", none, none⟩,
                                     ⟨"Queen", "Love of My Life", none, none⟩])⟩
        "Yesterday").fst =
      "Here are the recommended songs:\n" ++
        concatStrs ([⟨"The Beatles", "Yesterday", none, none⟩,
                     (⟨"Queen", "Love of My Life", none, none⟩ : SongRec)].map songLine) :=
  (recommendations_rendered_as_bullets
    ⟨none, fun _ _ => .ok (some [⟨"The Beatles", "Yesterday", none, none⟩,
                                 ⟨"Queen", "Love of My Life", none, none⟩])⟩
    "Yesterday" _ rfl (by decide)).1

/-- Claim C7: the `/recommend` handler returns HTTP 404 with detail
"Song not found" exactly when the backend reports no match, HTTP 500 with the
exception text for any other failure, and, for the backend modelled from the
spec, a known song yields the backend's matches truncated to `top_n` (exactly
`top_n` records, or fewer when the backend has fewer) in backend order. -/
theorem recommend_endpoint_spec (rs : Backend) (req : RecommendationRequest) :
    (recommend_endpoint rs req = .httpError 404 "Song not found" ↔
      rs req.song_name req.top_n = .ok none) ∧
    (∀ e, rs req.song_name req.top_n = .error e →
      recommend_endpoint rs req = .httpError 500 e) ∧
    (∀ (db : String → Option (List SongRec)) (rows : List SongRec),
      db req.song_name = some rows →
      recommend_endpoint (fun s n => .ok (spec_recommend_songs db s n)) req =
        .ok (rows.take req.top_n) ∧
      (rows.take req.top_n).length = min req.top_n rows.length ∧
      rows.take req.top_n <+: rows) := by
  refine ⟨?_, ?_, ?_⟩
  · unfold recommend_endpoint
    rcases h : rs req.song_name req.top_n with e | r
    · simp
    · rcases r with _ | rows <;> simp
  · intro e h
    unfold recommend_endpoint
    rw [h]
  · intro db rows h
    refine ⟨?_, List.length_take req.top_n rows, List.take_prefix req.top_n rows⟩
    have hs : spec_recommend_songs db req.song_name req.top_n =
        some (rows.take req.top_n) := by
      unfold spec_recommend_songs
      rw [h]
      rfl
    show (match (Except.ok (spec_recommend_songs db req.song_name req.top_n) :
            Except String (Option (List SongRec))) with
          | .error e => ApiResult.httpError 500 e
          | .ok none => ApiResult.httpError 404 "Song not found"
          | .ok (some rows) => ApiResult.ok rows) = ApiResult.ok (rows.take req.top_n)
    rw [hs]

/-- Witness for claim C7: an unknown song gives 404, a raising backend gives
500, and a known three-match song with `top_n = 2` gives exactly the first
two records. -/
theorem recommend_endpoint_spec_witness :
    recommend_endpoint (fun _ _ => .ok none) ⟨"Unknown Song", 5⟩ =
      .httpError 404 "Song not found" ∧
    recommend_endpoint (fun _ _ => .error "dataset missing") ⟨"Yesterday", 5⟩ =
      .httpError 500 "dataset missing" ∧
    recommend_endpoint
        (fun s n => .ok (spec_recommend_songs
          (fun _ => some [⟨"a1", "s1", none, none⟩, ⟨"a2", "s2", none, none⟩,
                          ⟨"a3", "s3", none, none⟩]) s n))
        ⟨"s0", 2⟩ =
      .ok [⟨"a1", "s1", none, none⟩, ⟨"a2", "s2", none, none⟩] :=
  ⟨(recommend_endpoint_spec (fun _ _ => .ok none) ⟨"Unknown Song", 5⟩).1.mpr rfl,
   (recommend_endpoint_spec (fun _ _ => .error "dataset missing") ⟨"Yesterday", 5⟩).2.1
     "dataset missing" rfl,
   ((recommend_endpoint_spec (fun _ _ => .ok none) ⟨"s0", 2⟩).2.2
     (fun _ => some [⟨"a1", "s1", none, none⟩, ⟨"a2", "s2", none, none⟩,
                     ⟨"a3", "s3", none, none⟩]) _ rfl).1⟩

theorem mem_pdUniqueAux (x : String) :
    ∀ (l : List String) (seen : List String),
      x ∈ pdUniqueAux seen l ↔ x ∈ l ∧ x ∉ seen := by
  intro l
  induction l with
  | nil => intro seen; simp [pdUniqueAux]
  | cons s rest ih =>
    intro seen
    unfold pdUniqueAux
    by_cases h : s ∈ seen
    · rw [if_pos h, ih]
      simp only [List.mem_cons]
      constructor
      · rintro ⟨h1, h2⟩
        exact ⟨Or.inr h1, h2⟩
      · rintro ⟨rfl | h1, h2⟩
        · exact absurd h h2
        · exact ⟨h1, h2⟩
    · rw [if_neg h]
      simp only [List.mem_cons, ih]
      constructor
      · rintro (rfl | ⟨h1, h2⟩)
        · exact ⟨Or.inl rfl, h⟩
        · exact ⟨Or.inr h1, fun hx => h2 (Or.inr hx)⟩
      · rintro ⟨rfl | h1, h2⟩
        · exact Or.inl rfl
        · by_cases hxs : x = s
          · exact Or.inl hxs
          · exact Or.inr ⟨h1, fun hx => hx.elim hxs h2⟩

theorem nodup_pdUniqueAux :
    ∀ (l : List String) (seen : List String), (pdUniqueAux seen l).Nodup := by
  intro l
  induction l with
  | nil => intro seen; simp [pdUniqueAux]
  | cons s rest ih =>
    intro seen
    unfold pdUniqueAux
    by_cases h : s ∈ seen
    · rw [if_pos h]; exact ih seen
    · rw [if_neg h]
      refine List.nodup_cons.mpr ⟨?_, ih (s :: seen)⟩
      intro hmem
      exact ((mem_pdUniqueAux s rest (s :: seen)).mp hmem).2 (List.mem_cons_self s seen)

theorem mem_insertSorted (x s : String) (l : List String) :
    x ∈ insertSorted s l ↔ x = s ∨ x ∈ l := by
  induction l with
  | nil => simp [insertSorted]
  | cons t ts ih =>
    unfold insertSorted
    by_cases h : s ≤ t
    · rw [if_pos h]; simp
    · rw [if_neg h]
      simp only [List.mem_cons, ih]
      tauto

theorem perm_insertSorted (s : String) (l : List String) :
    (insertSorted s l).Perm (s :: l) := by
  induction l with
  | nil => simp [insertSorted]
  | cons t ts ih =>
    unfold insertSorted
    by_cases h : s ≤ t
    · rw [if_pos h]
    · rw [if_neg h]
      exact (List.Perm.cons t ih).trans (List.Perm.swap s t ts)

theorem sorted_insertSorted (s : String) (l : List String)
    (h : List.Sorted (· ≤ ·) l) :
    List.Sorted (· ≤ ·) (insertSorted s l) := by
  induction l with
  | nil => simp [insertSorted]
  | cons t ts ih =>
    rw [List.sorted_cons] at h
    unfold insertSorted
    by_cases hle : s ≤ t
    · rw [if_pos hle, List.sorted_cons]
      refine ⟨?_, List.sorted_cons.mpr h⟩
      intro b hb
      rcases List.mem_cons.mp hb with rfl | hb
      · exact hle
      · exact le_trans hle (h.1 b hb)
    · rw [if_neg hle, List.sorted_cons]
      refine ⟨?_, ih h.2⟩
      intro b hb
      rcases (mem_insertSorted b s ts).mp hb with rfl | hb
      · exact le_of_not_le hle
      · exact h.1 b hb

theorem sorted_sortStrings (l : List String) :
    List.Sorted (· ≤ ·) (sortStrings l) := by
  induction l with
  | nil => simp [sortStrings]
  | cons s ss ih => exact sorted_insertSorted s (sortStrings ss) ih

theorem perm_sortStrings (l : List String) : (sortStrings l).Perm l := by
  induction l with
  | nil => simp [sortStrings]
  | cons s ss ih =>
    exact (perm_insertSorted s (sortStrings ss)).trans (List.Perm.cons s ih)

theorem mem_pdUnique (x : String) (l : List String) : x ∈ pdUnique l ↔ x ∈ l := by
  rw [show pdUnique l = pdUniqueAux [] l from rfl, mem_pdUniqueAux]
  simp

/-- Claim C9: the `/songs` handler returns a deduplicated, alphabetically
sorted list of all known (non-null) song titles, together with a count equal
to the length of that list. -/
theorem songs_endpoint_spec (col : List (Option String)) :
    List.Sorted (· ≤ ·) (get_all_songs col).songs ∧
    (get_all_songs col).songs.Nodup ∧
    (∀ s, s ∈ (get_all_songs col).songs ↔ some s ∈ col) ∧
    (get_all_songs col).count = (get_all_songs col).songs.length := by
  refine ⟨sorted_sortStrings _, ?_, ?_, rfl⟩
  · exact (perm_sortStrings (pdUnique (col.filterMap id))).symm.nodup
      (nodup_pdUniqueAux (col.filterMap id) [])
  · intro s
    rw [show (get_all_songs col).songs = sortStrings (pdUnique (col.filterMap id)) from rfl,
        (perm_sortStrings (pdUnique (col.filterMap id))).mem_iff,
        mem_pdUnique s (col.filterMap id)]
    simp only [List.mem_filterMap, id]
    constructor
    · rintro ⟨a, ha, rfl⟩
      exact ha
    · intro h
      exact ⟨some s, h, rfl⟩

theorem takeWhile_all_head_false {p : Char → Bool} (xs : List Char) (y : Char)
    (ys : List Char) (hall : ∀ c ∈ xs, p c = true) (hy : p y = false) :
    (xs ++ y :: ys).takeWhile p = xs := by
  induction xs with
  | nil => simp [List.takeWhile_cons, hy]
  | cons x xt ih =>
    have hx : p x = true := hall x (List.mem_cons_self x xt)
    rw [List.cons_append, List.takeWhile_cons, if_pos hx,
        ih (fun c hc => hall c (List.mem_cons_of_mem x hc))]

theorem dropWhile_all_head_false {p : Char → Bool} (xs : List Char) (y : Char)
    (ys : List Char) (hall : ∀ c ∈ xs, p c = true) (hy : p y = false) :
    (xs ++ y :: ys).dropWhile p = y :: ys := by
  induction xs with
  | nil => simp [List.dropWhile_cons, hy]
  | cons x xt ih =>
    have hx : p x = true := hall x (List.mem_cons_self x xt)
    rw [List.cons_append, List.dropWhile_cons, if_pos hx,
        ih (fun c hc => hall c (List.mem_cons_of_mem x hc))]

theorem findQuoted_cons (c : Char) (cs : List Char) :
    findQuoted (c :: cs) =
      if isQuote c then
        (if ((cs.takeWhile fun x => !(isQuote x)).isEmpty ||
             (cs.dropWhile fun x => !(isQuote x)).isEmpty)
         then findQuoted cs
         else some (String.mk (cs.takeWhile fun x => !(isQuote x))))
      else findQuoted cs := rfl

theorem findQuoted_skip (pre l : List Char)
    (hpre : ∀ c ∈ pre, isQuote c = false) :
    findQuoted (pre ++ l) = findQuoted l := by
  induction pre with
  | nil => rfl
  | cons c cs ih =>
    have hc : isQuote c = false := hpre c (List.mem_cons_self c cs)
    show findQuoted (c :: (cs ++ l)) = findQuoted l
    rw [findQuoted_cons, if_neg (by simp [hc])]
    exact ih (fun x hx => hpre x (List.mem_cons_of_mem c hx))

theorem findQuoted_hit (q1 q2 : Char) (content post : List Char)
    (hq1 : isQuote q1 = true) (hq2 : isQuote q2 = true)
    (hcne : content ≠ []) (hcq : ∀ c ∈ content, isQuote c = false) :
    findQuoted (q1 :: (content ++ q2 :: post)) = some (String.mk content) := by
  have htake : (content ++ q2 :: post).takeWhile (fun x => !(isQuote x)) = content :=
    takeWhile_all_head_false content q2 post
      (fun c hc => by simp [hcq c hc]) (by simp [hq2])
  have hdrop : (content ++ q2 :: post).dropWhile (fun x => !(isQuote x)) = q2 :: post :=
    dropWhile_all_head_false content q2 post
      (fun c hc => by simp [hcq c hc]) (by simp [hq2])
  have hemp : content.isEmpty = false := by
    cases content with
    | nil => exact absurd rfl hcne
    | cons a as => rfl
  rw [findQuoted_cons, if_pos hq1, htake, hdrop]
  rw [hemp]
  rw [if_neg (by simp)]

/-- Claim C3: when a trigger keyword is present (case-insensitively) and the
original message decomposes as a quote-free stretch, a quote character, a
nonempty quote-free content, a closing quote character and a tail, the
extracted identifier is exactly that first quoted substring (internal spacing
included) — regardless of whether the "similar to" pattern would also match —
and the similarity backend is looked up with exactly that identifier. -/
theorem quoted_extraction_spec (input : String) (pre content post : List Char)
    (q1 q2 : Char)
    (hdec : input.toList = pre ++ q1 :: (content ++ q2 :: post))
    (hpre : ∀ c ∈ pre, isQuote c = false)
    (hq1 : isQuote q1 = true) (hq2 : isQuote q2 = true)
    (hcne : content ≠ []) (hcq : ∀ c ∈ content, isQuote c = false)
    (hkw : hasKeyword input = true) :
    extract_song_name input = some (String.mk content) ∧
    (∀ (f : LlmFn) (b : Backend),
      (chat ⟨some f, b⟩ input).backendCalls = [(String.mk content, 5)]) := by
  have hfq : findQuoted input.toList = some (String.mk content) := by
    rw [hdec, findQuoted_skip pre _ hpre]
    exact findQuoted_hit q1 q2 content post hq1 hq2 hcne hcq
  have hx : extract_song_name input = some (String.mk content) := by
    unfold extract_song_name
    rw [if_pos hkw, hfq]
  refine ⟨hx, fun f b => ?_⟩
  rw [chat_some_extract f b input (String.mk content) hx]
  exact get_recommendations_snd ⟨some f, b⟩ (String.mk content)

/-- Witness for claim C3: a message whose surrounding text is upper-cased,
whose quoted substring has internal spacing, and in which the "similar to"
pattern would also match; the quoted substring wins. -/
theorem quoted_extraction_spec_witness :
    extract_song_name "Can you RECOMMEND songs like \x27Hey Jude\x27 similar to Let It Be?" =
      some (String.mk "Hey Jude".toList) ∧
    (chat ⟨some (fun _ => .ok "sure"), fun _ _ => .ok none⟩
        "Can you RECOMMEND songs like \x27Hey Jude\x27 similar to Let It Be?").backendCalls =
      [(String.mk "Hey Jude".toList, 5)] := by
  have h := quoted_extraction_spec
    "Can you RECOMMEND songs like \x27Hey Jude\x27 similar to Let It Be?"
    "Can you RECOMMEND songs like ".toList "Hey Jude".toList
    " similar to Let It Be?".toList squote squote
    (by decide) (by decide) (by decide) (by decide) (by decide) (by decide) (by decide)
  exact ⟨h.1, h.2 (fun _ => .ok "sure") (fun _ _ => .ok none)⟩

theorem lazyCapture_cons (acc : List Char) (c : Char) (cs : List Char) :
    lazyCapture acc (c :: cs) =
      if c == '?' || c == '.' then some acc.reverse
      else if c == '\n' then (if cs.isEmpty then some acc.reverse else none)
      else lazyCapture (c :: acc) cs := rfl

theorem lazyCapture_run (u : List Char) (stop : List Char) (acc : List Char)
    (hu : ∀ c ∈ u, c ≠ '?' ∧ c ≠ '.' ∧ c ≠ '\n')
    (hstop : stop = [] ∨ ∃ c' cs', stop = c' :: cs' ∧ (c' = '?' ∨ c' = '.')) :
    lazyCapture acc (u ++ stop) = some (acc.reverse ++ u) := by
  induction u generalizing acc with
  | nil =>
    rcases hstop with rfl | ⟨c', cs', rfl, hc⟩
    · show lazyCapture acc [] = _
      simp [lazyCapture]
    · show lazyCapture acc (c' :: cs') = _
      rw [lazyCapture_cons, if_pos (by rcases hc with rfl | rfl <;> simp)]
      simp
  | cons c cu ih =>
    obtain ⟨h1, h2, h3⟩ := hu c (List.mem_cons_self c cu)
    show lazyCapture acc (c :: (cu ++ stop)) = _
    rw [lazyCapture_cons, if_neg (by simp [h1, h2]), if_neg (by simp [h3]),
        ih (c :: acc) (fun x hx => hu x (List.mem_cons_of_mem c hx))]
    simp

theorem matchSimilarAt_run (t stop : List Char) (ht : t ≠ [])
    (hu : ∀ c ∈ t, c ≠ '?' ∧ c ≠ '.' ∧ c ≠ '\n')
    (hstop : stop = [] ∨ ∃ c' cs', stop = c' :: cs' ∧ (c' = '?' ∨ c' = '.')) :
    matchSimilarAt (simTo ++ (t ++ stop)) = some t := by
  unfold matchSimilarAt
  rw [if_pos (startsWithListB_self_append simTo (t ++ stop)),
      List.drop_left simTo (t ++ stop)]
  cases t with
  | nil => exact absurd rfl ht
  | cons c cu =>
    obtain ⟨h1, h2, h3⟩ := hu c (List.mem_cons_self c cu)
    show (if c == '\n' then none else lazyCapture [c] (cu ++ stop)) = some (c :: cu)
    rw [if_neg (by simp [h3]),
        lazyCapture_run cu stop [c] (fun x hx => hu x (List.mem_cons_of_mem c hx)) hstop]
    rfl

theorem similarSearch_append_head (x : List Char) :
    similarSearch (simTo ++ x) =
      match matchSimilarAt (simTo ++ x) with
      | some t => some t
      | none => similarSearch (['i', 'm', 'i', 'l', 'a', 'r', ' ', 't', 'o', ' '] ++ x) := rfl

/-- Claim C4: on a message with a trigger keyword and no quoted substring, the
"similar to" pattern applies to the lower-cased message: the captured text is
the shortest nonempty stretch after "similar to " running until a question
mark, a period, or the end of the string, and the extracted identifier is that
capture stripped of surrounding whitespace (lower-cased, since the match runs
on the lower-cased message); in particular the message
"can you recommend something similar to Yesterday?" extracts "yesterday". -/
theorem similar_extraction_spec :
    (∀ (t stop : List Char), t ≠ [] →
      (∀ c ∈ t, c ≠ '?' ∧ c ≠ '.' ∧ c ≠ '\n') →
      (stop = [] ∨ ∃ c' cs', stop = c' :: cs' ∧ (c' = '?' ∨ c' = '.')) →
      similarSearch (simTo ++ (t ++ stop)) = some t) ∧
    (∀ (input : String) (t : List Char), hasKeyword input = true →
      findQuoted input.toList = none →
      similarSearch (pyLower input).toList = some t →
      extract_song_name input = some (String.mk (pyStrip t))) ∧
    extract_song_name "can you recommend something similar to Yesterday?" =
      some "yesterday" := by
  refine ⟨?_, ?_, by decide⟩
  · intro t stop ht hu hstop
    rw [similarSearch_append_head, matchSimilarAt_run t stop ht hu hstop]
  · intro input t hkw hnq hsim
    unfold extract_song_name
    rw [if_pos hkw, hnq, hsim]

/-- Witness for claim C4: the leftmost-shortest capture at concrete inputs,
the extraction pipeline on a keyword message with no quotes, and the concrete
example from the specification. -/
theorem similar_extraction_spec_witness :
    similarSearch (simTo ++ ("let it be".toList ++ ['?'])) = some "let it be".toList ∧
    extract_song_name "I want recommendations similar to Imagine." =
      some (String.mk (pyStrip "imagine".toList)) ∧
    extract_song_name "can you recommend something similar to Yesterday?" =
      some "yesterday" :=
  ⟨similar_extraction_spec.1 "let it be".toList ['?'] (by decide) (by decide)
      (Or.inr ⟨'?', [], rfl, Or.inl rfl⟩),
   similar_extraction_spec.2.1 "I want recommendations similar to Imagine."
      "imagine".toList (by decide) (by decide) (by decide),
   similar_extraction_spec.2.2⟩

theorem stripThinkF_nil (f : Nat) : stripThinkF f [] = [] := by
  cases f <;> rfl

theorem dropUntilClose_cons (c : Char) (cs : List Char) :
    dropUntilClose (c :: cs) =
      if startsWithListB closeTag (c :: cs) then some ((c :: cs).drop 8)
      else dropUntilClose cs := rfl

theorem dropUntilClose_length {l r : List Char} (h : dropUntilClose l = some r) :
    r.length + 8 ≤ l.length := by
  induction l with
  | nil => simp [dropUntilClose] at h
  | cons c cs ih =>
    rw [dropUntilClose_cons] at h
    by_cases hs : startsWithListB closeTag (c :: cs) = true
    · rw [if_pos hs] at h
      have hlen : closeTag.length ≤ (c :: cs).length := startsWithListB_le_length hs
      have h8 : closeTag.length = 8 := rfl
      have hr : r = (c :: cs).drop 8 := by
        injection h with h
        exact h.symm
      subst hr
      rw [List.length_drop]
      simp only [List.length_cons] at hlen ⊢
      omega
    · rw [if_neg hs] at h
      have := ih h
      simp only [List.length_cons]
      omega

theorem stripThinkF_cons (f : Nat) (c : Char) (cs : List Char) :
    stripThinkF (f + 1) (c :: cs) =
      if startsWithListB openTag (c :: cs) then
        match dropUntilClose ((c :: cs).drop 7) with
        | some rest => stripThinkF f rest
        | none => c :: stripThinkF f cs
      else c :: stripThinkF f cs := rfl

theorem stripThinkF_congr : ∀ (f₁ f₂ : Nat) (l : List Char),
    l.length ≤ f₁ → l.length ≤ f₂ → stripThinkF f₁ l = stripThinkF f₂ l := by
  intro f₁
  induction f₁ with
  | zero =>
    intro f₂ l h1 _
    have hl : l = [] := by
      cases l with
      | nil => rfl
      | cons c cs => simp at h1
    subst hl
    rw [stripThinkF_nil, stripThinkF_nil]
  | succ g ih =>
    intro f₂ l h1 h2
    cases l with
    | nil => rw [stripThinkF_nil, stripThinkF_nil]
    | cons c cs =>
      cases f₂ with
      | zero => simp at h2
      | succ g₂ =>
        simp only [List.length_cons] at h1 h2
        rw [stripThinkF_cons g, stripThinkF_cons g₂]
        by_cases hs : startsWithListB openTag (c :: cs) = true
        · rw [if_pos hs, if_pos hs]
          cases hd : dropUntilClose ((c :: cs).drop 7) with
          | none =>
            show c :: stripThinkF g cs = c :: stripThinkF g₂ cs
            rw [ih g₂ cs (by omega) (by omega)]
          | some rest =>
            have hb := dropUntilClose_length hd
            rw [List.length_drop, List.length_cons] at hb
            show stripThinkF g rest = stripThinkF g₂ rest
            exact ih g₂ rest (by omega) (by omega)
        · rw [if_neg hs, if_neg hs, ih g₂ cs (by omega) (by omega)]

theorem dropUntilClose_exact (mid t : List Char) (hm : '<' ∉ mid) :
    dropUntilClose (mid ++ (closeTag ++ t)) = some t := by
  induction mid with
  | nil =>
    show dropUntilClose (closeTag ++ t) = some t
    rw [show dropUntilClose (closeTag ++ t) =
          (if startsWithListB closeTag (closeTag ++ t) then some ((closeTag ++ t).drop 8)
           else dropUntilClose (['/', 't', 'h', 'i', 'n', 'k', '>'] ++ t)) from rfl,
        if_pos (startsWithListB_self_append closeTag t),
        show (closeTag ++ t).drop 8 = t from List.drop_left closeTag t]
  | cons m ms ih =>
    have hm1 : m ≠ '<' := fun h => hm (h ▸ List.mem_cons_self m ms)
    have hbeq : (('<' == m) : Bool) = false := beq_eq_false_iff_ne.mpr (Ne.symm hm1)
    have hsw : startsWithListB closeTag (m :: (ms ++ (closeTag ++ t))) = false := by
      show (('<' == m) && startsWithListB ['/', 't', 'h', 'i', 'n', 'k', '>']
            (ms ++ (closeTag ++ t))) = false
      rw [hbeq]
      exact Bool.false_and _
    show dropUntilClose (m :: (ms ++ (closeTag ++ t))) = some t
    rw [dropUntilClose_cons, if_neg (by simp [hsw])]
    exact ih (fun h => hm (List.mem_cons_of_mem m h))

theorem stripThinkF_open (g : Nat) (x rest : List Char)
    (h : dropUntilClose x = some rest) :
    stripThinkF (g + 1) (openTag ++ x) = stripThinkF g rest := by
  rw [show stripThinkF (g + 1) (openTag ++ x) =
        (if startsWithListB openTag (openTag ++ x) then
           match dropUntilClose ((openTag ++ x).drop 7) with
           | some r => stripThinkF g r
           | none => '<' :: stripThinkF g (['t', 'h', 'i', 'n', 'k', '>'] ++ x)
         else '<' :: stripThinkF g (['t', 'h', 'i', 'n', 'k', '>'] ++ x)) from rfl,
      if_pos (startsWithListB_self_append openTag x),
      show (openTag ++ x).drop 7 = x from List.drop_left openTag x, h]

theorem stripThink_removes_region (mid t : List Char) (hm : '<' ∉ mid) :
    stripThink (openTag ++ (mid ++ (closeTag ++ t))) = stripThink t := by
  have hd : dropUntilClose (mid ++ (closeTag ++ t)) = some t :=
    dropUntilClose_exact mid t hm
  have hlen : (openTag ++ (mid ++ (closeTag ++ t))).length =
      (14 + (mid.length + t.length)) + 1 := by
    simp only [List.length_append]
    have h7 : openTag.length = 7 := rfl
    have h8 : closeTag.length = 8 := rfl
    omega
  unfold stripThink
  rw [hlen, stripThinkF_open _ _ _ hd]
  exact stripThinkF_congr _ _ t (by omega) (le_refl _)

theorem collapseF_nil (f : Nat) : collapseF f [] = [] := by
  cases f <;> rfl

theorem collapseF_cons (f : Nat) (c : Char) (cs : List Char) :
    collapseF (f + 1) (c :: cs) =
      if c == '\n' then
        match lastNewlinePos cs with
        | some k => '\n' :: '\n' :: collapseF f (cs.drop (k + 1))
        | none => c :: collapseF f cs
      else c :: collapseF f cs := rfl

theorem lastNewlinePos_cons (c : Char) (cs : List Char) :
    lastNewlinePos (c :: cs) =
      if isPyWs c then
        match lastNewlinePos cs with
        | some k => some (k + 1)
        | none => if c == '\n' then some 0 else none
      else none := rfl

theorem lastNewlinePos_none_of_no_ws (b : List Char)
    (hb : ∀ c ∈ b, isPyWs c = false) : lastNewlinePos b = none := by
  cases b with
  | nil => rfl
  | cons c cs =>
    have hc := hb c (List.mem_cons_self c cs)
    rw [lastNewlinePos_cons, if_neg (by simp [hc])]

theorem lastNewlinePos_replicate (m : Nat) (b : List Char)
    (hb : ∀ c ∈ b, isPyWs c = false) :
    lastNewlinePos (List.replicate (m + 1) '\n' ++ b) = some m := by
  induction m with
  | zero =>
    show lastNewlinePos ('\n' :: b) = some 0
    rw [lastNewlinePos_cons, if_pos (show isPyWs '\n' = true from rfl),
        lastNewlinePos_none_of_no_ws b hb]
    rfl
  | succ k ih =>
    show lastNewlinePos ('\n' :: (List.replicate (k + 1) '\n' ++ b)) = some (k + 1)
    rw [lastNewlinePos_cons, if_pos (show isPyWs '\n' = true from rfl), ih]

theorem collapseF_of_no_ws (f : Nat) (b : List Char) (hf : b.length ≤ f)
    (hb : ∀ c ∈ b, isPyWs c = false) : collapseF f b = b := by
  induction f generalizing b with
  | zero =>
    cases b with
    | nil => rfl
    | cons c cs => simp at hf
  | succ g ih =>
    cases b with
    | nil => rfl
    | cons c cs =>
      have hc := hb c (List.mem_cons_self c cs)
      have hcn : ((c == '\n') : Bool) = false := by
        cases hcc : ((c == '\n') : Bool) with
        | false => rfl
        | true =>
          exfalso
          rw [show isPyWs c = ((c == ' ') || (c == '\t') || (c == '\n') || (c == '\r') ||
               (c == Char.ofNat 11) || (c == Char.ofNat 12)) from rfl, hcc] at hc
          simp at hc
      simp only [List.length_cons] at hf
      rw [collapseF_cons, if_neg (by simp [hcn]),
          ih cs (by omega) (fun x hx => hb x (List.mem_cons_of_mem c hx))]

theorem collapseF_run (a : List Char) : ∀ (f n : Nat) (b : List Char),
    3 ≤ n → '\n' ∉ a → (∀ c ∈ b, isPyWs c = false) →
    (a ++ (List.replicate n '\n' ++ b)).length ≤ f →
    collapseF f (a ++ (List.replicate n '\n' ++ b)) = a ++ ('\n' :: '\n' :: b) := by
  induction a with
  | nil =>
    intro f n b hn _ hb hf
    simp only [List.nil_append, List.length_append, List.length_replicate] at hf
    obtain ⟨m, rfl⟩ : ∃ m, n = (m + 1) + 1 + 1 := ⟨n - 3, by omega⟩
    obtain ⟨g, rfl⟩ : ∃ g, f = g + 1 := ⟨f - 1, by omega⟩
    show collapseF (g + 1) ('\n' :: (List.replicate (m + 1 + 1) '\n' ++ b)) =
      '\n' :: '\n' :: b
    rw [collapseF_cons, if_pos (show (('\n' == '\n') : Bool) = true from rfl),
        lastNewlinePos_replicate (m + 1) b hb]
    have hdrop : (List.replicate (m + 1 + 1) '\n' ++ b).drop (m + 1 + 1) = b := by
      have := List.drop_left (List.replicate (m + 1 + 1) '\n') b
      rwa [List.length_replicate] at this
    show '\n' :: '\n' ::
        collapseF g ((List.replicate (m + 1 + 1) '\n' ++ b).drop (m + 1 + 1)) =
      '\n' :: '\n' :: b
    rw [hdrop, collapseF_of_no_ws g b (by omega) hb]
  | cons x xs ih =>
    intro f n b hn ha hb hf
    have hx : x ≠ '\n' := fun h => ha (h ▸ List.mem_cons_self x xs)
    simp only [List.cons_append, List.length_cons] at hf
    obtain ⟨g, rfl⟩ : ∃ g, f = g + 1 := ⟨f - 1, by omega⟩
    show collapseF (g + 1) (x :: (xs ++ (List.replicate n '\n' ++ b))) =
      x :: (xs ++ ('\n' :: '\n' :: b))
    rw [collapseF_cons, if_neg (by simp [hx]),
        ih g n b hn (fun h => ha (List.mem_cons_of_mem x h)) hb (by omega)]

theorem collapseNewlines_run (a b : List Char) (n : Nat) (hn : 3 ≤ n)
    (ha : '\n' ∉ a) (hb : ∀ c ∈ b, isPyWs c = false) :
    collapseNewlines (a ++ (List.replicate n '\n' ++ b)) = a ++ ('\n' :: '\n' :: b) :=
  collapseF_run a _ n b hn ha hb (le_refl _)

/-- Claim C5: cleaning removes every thinking-tag-delimited region (tags
included, across lines), collapses runs of three or more newlines to exactly
two newline characters, and trims surrounding whitespace; in particular
cleaning "<think>ignore this</think>Hello there" yields "Hello there", and
four consecutive newlines between two text lines become exactly two. -/
theorem clean_thinking_spec :
    clean_thinking_tags "<think>ignore this</think>Hello there" = "Hello there" ∧
    (∀ (mid t : List Char), '<' ∉ mid →
      stripThink (openTag ++ (mid ++ (closeTag ++ t))) = stripThink t) ∧
    (∀ (a b : List Char) (n : Nat), 3 ≤ n → '\n' ∉ a →
      (∀ c ∈ b, isPyWs c = false) →
      collapseNewlines (a ++ (List.replicate n '\n' ++ b)) =
        a ++ ('\n' :: '\n' :: b)) ∧
    clean_thinking_tags "line one\n\n\n\nline two" = "line one\n\nline two" ∧
    clean_thinking_tags "   padded reply \t " = "padded reply" := by
  refine ⟨by decide, stripThink_removes_region, ?_, by decide, by decide⟩
  intro a b n hn ha hb
  exact collapseNewlines_run a b n hn ha hb

/-- Witness for claim C5, applying the general conjuncts at concrete tag
regions and newline runs. -/
theorem clean_thinking_spec_witness :
    clean_thinking_tags "<think>ignore this</think>Hello there" = "Hello there" ∧
    stripThink (openTag ++ (" deep reasoning ".toList ++ (closeTag ++ "Answer".toList))) =
      stripThink "Answer".toList ∧
    collapseNewlines ("line one".toList ++ (List.replicate 4 '\n' ++ "linetwo".toList)) =
      "line one".toList ++ ('\n' :: '\n' :: "linetwo".toList) :=
  ⟨clean_thinking_spec.1,
   clean_thinking_spec.2.1 " deep reasoning ".toList "Answer".toList (by decide),
   clean_thinking_spec.2.2.1 "line one".toList "linetwo".toList 4 (by decide) (by decide)
     (by decide)⟩

theorem format_with_llm_snd_env (env : Env) (f : LlmFn) (i r : String)
    (hllm : env.llm = some f) :
    (format_with_llm env i r).snd = [formatMessages i r] := by
  unfold format_with_llm
  rw [hllm]
  show (match f (formatMessages i r) with
        | Except.ok content => (clean_thinking_tags content, [formatMessages i r])
        | Except.error e => ("Could not format recommendations using LLM: " ++ e,
                             [formatMessages i r])).snd = _
  rcases f (formatMessages i r) with e | c <;> rfl

theorem chat_extract_of_llm (env : Env) (f : LlmFn) (input s : String)
    (hllm : env.llm = some f) (hx : extract_song_name input = some s) :
    chat env input =
      ⟨(format_with_llm env input (get_recommendations env s).fst).fst,
       (format_with_llm env input (get_recommendations env s).fst).snd,
       (get_recommendations env s).snd⟩ := by
  unfold chat
  rw [hllm, hx]

/-- Concrete collaborators for claim C1: an LLM that replies with a fixed
formatted text, and a backend that knows no songs. -/
def c1Env : Env :=
  ⟨some (fun _ => .ok "Here are some great picks for you!"), fun _ _ => .ok none⟩

/-- Counterexample to claim C1 as stated: at the concrete input
"recommend songs like 'X'" the backend reports not-found, yet the agent's
`chat` reply is the LLM's output rather than the literal fallback text, and an
LLM formatting call is made. -/
theorem chat_not_found_counterexample :
    (chat c1Env "recommend songs like \x27X\x27").reply ≠ notFoundMsg ∧
    (chat c1Env "recommend songs like \x27X\x27").llmCalls ≠ [] := by
  constructor <;> decide

/-- Claim C1 (amended): when the backend reports not-found (`None`) or an
empty result for the extracted identifier, the recommendation-lookup step
produces exactly the literal fallback text, but `chat` does not return it
as-is: it makes exactly one LLM formatting call whose prompt embeds the
fallback text, and returns that formatter's output. -/
theorem chat_not_found_formats_through_llm (env : Env) (f : LlmFn)
    (input s : String) (hllm : env.llm = some f)
    (hx : extract_song_name input = some s)
    (hb : env.backend s 5 = .ok none ∨ env.backend s 5 = .ok (some [])) :
    (get_recommendations env s).fst = notFoundMsg ∧
    chat env input =
      ⟨(format_with_llm env input notFoundMsg).fst,
       [formatMessages input notFoundMsg], [(s, 5)]⟩ := by
  have h1 : (get_recommendations env s).fst = notFoundMsg := by
    unfold get_recommendations
    rcases hb with hb | hb
    · rw [hb]
    · rw [hb]
      rfl
  refine ⟨h1, ?_⟩
  rw [chat_extract_of_llm env f input s hllm hx, h1, get_recommendations_snd env s,
      format_with_llm_snd_env env f input notFoundMsg hllm]

/-- Witness for the amended claim C1 at the concrete collaborators of the
counterexample. -/
theorem chat_not_found_formats_witness :
    (get_recommendations c1Env "X").fst = notFoundMsg ∧
    chat c1Env "recommend songs like \x27X\x27" =
      ⟨(format_with_llm c1Env "recommend songs like \x27X\x27" notFoundMsg).fst,
       [formatMessages "recommend songs like \x27X\x27" notFoundMsg], [("X", 5)]⟩ :=
  chat_not_found_formats_through_llm c1Env
    (fun _ => .ok "Here are some great picks for you!")
    "recommend songs like \x27X\x27" "X" rfl (by decide) (Or.inl rfl)
